import Mathlib

/-!
Verification of the es2tabular core (`src/index.js`): a shallow embedding of
the aggregation-flattening walk (`processAggregation`), row assembly
(`createRowFromBucket`), hits flattening (`hitsToTable`), CSV encoding
(`tableToCSV` / `escapeCSV`) and the dispatcher (`esToTable`), together with
theorems settling the specification claims.

JSON/JavaScript values are modelled by the inductive type `JVal`; objects are
insertion-ordered association lists (JS object key iteration order for the
non-integer keys the program manipulates). Numbers are modelled as integers:
every numeric field the code inspects (`doc_count`, `sum_other_doc_count`,
metric `value`s) is an integral count in the data model.
-/

namespace Es2Tabular

/-- A JavaScript/JSON value: null, boolean, number, string, array or object.
Objects are insertion-ordered association lists. -/
inductive JVal where
  | null : JVal
  | bool (b : Bool) : JVal
  | num (n : Int) : JVal
  | str (s : String) : JVal
  | arr (elems : List JVal) : JVal
  | obj (fields : List (String × JVal)) : JVal
deriving Repr

mutual

/-- Boolean structural equality on values (the strict-equality test the code
performs on scalar keys, extended structurally). -/
def jvalBeq : JVal → JVal → Bool
  | .null, .null => true
  | .bool a, .bool b => a == b
  | .num a, .num b => a == b
  | .str a, .str b => a == b
  | .arr xs, .arr ys => jvalListBeq xs ys
  | .obj fs, .obj gs => jfieldsBeq fs gs
  | _, _ => false

/-- Boolean equality on value lists. -/
def jvalListBeq : List JVal → List JVal → Bool
  | [], [] => true
  | x :: xs, y :: ys => jvalBeq x y && jvalListBeq xs ys
  | _, _ => false

/-- Boolean equality on field lists. -/
def jfieldsBeq : List (String × JVal) → List (String × JVal) → Bool
  | [], [] => true
  | f :: fs, g :: gs => (f.1 == g.1 && jvalBeq f.2 g.2) && jfieldsBeq fs gs
  | _, _ => false

end

mutual

/-- `jvalBeq` decides equality. -/
theorem jvalBeq_iff : ∀ (a b : JVal), jvalBeq a b = true ↔ a = b
  | .null, .null => by simp [jvalBeq]
  | .null, .bool _ => by simp [jvalBeq]
  | .null, .num _ => by simp [jvalBeq]
  | .null, .str _ => by simp [jvalBeq]
  | .null, .arr _ => by simp [jvalBeq]
  | .null, .obj _ => by simp [jvalBeq]
  | .bool _, .null => by simp [jvalBeq]
  | .bool _, .bool _ => by simp [jvalBeq]
  | .bool _, .num _ => by simp [jvalBeq]
  | .bool _, .str _ => by simp [jvalBeq]
  | .bool _, .arr _ => by simp [jvalBeq]
  | .bool _, .obj _ => by simp [jvalBeq]
  | .num _, .null => by simp [jvalBeq]
  | .num _, .bool _ => by simp [jvalBeq]
  | .num _, .num _ => by simp [jvalBeq]
  | .num _, .str _ => by simp [jvalBeq]
  | .num _, .arr _ => by simp [jvalBeq]
  | .num _, .obj _ => by simp [jvalBeq]
  | .str _, .null => by simp [jvalBeq]
  | .str _, .bool _ => by simp [jvalBeq]
  | .str _, .str _ => by simp [jvalBeq]
  | .str _, .num _ => by simp [jvalBeq]
  | .str _, .arr _ => by simp [jvalBeq]
  | .str _, .obj _ => by simp [jvalBeq]
  | .arr _, .null => by simp [jvalBeq]
  | .arr _, .bool _ => by simp [jvalBeq]
  | .arr _, .num _ => by simp [jvalBeq]
  | .arr _, .str _ => by simp [jvalBeq]
  | .arr xs, .arr ys => by
      simp only [jvalBeq, JVal.arr.injEq]
      exact jvalListBeq_iff xs ys
  | .arr _, .obj _ => by simp [jvalBeq]
  | .obj _, .null => by simp [jvalBeq]
  | .obj _, .bool _ => by simp [jvalBeq]
  | .obj _, .num _ => by simp [jvalBeq]
  | .obj _, .str _ => by simp [jvalBeq]
  | .obj _, .arr _ => by simp [jvalBeq]
  | .obj fs, .obj gs => by
      simp only [jvalBeq, JVal.obj.injEq]
      exact jfieldsBeq_iff fs gs

/-- `jvalListBeq` decides equality. -/
theorem jvalListBeq_iff : ∀ (xs ys : List JVal), jvalListBeq xs ys = true ↔ xs = ys
  | [], [] => by simp [jvalListBeq]
  | [], _ :: _ => by simp [jvalListBeq]
  | _ :: _, [] => by simp [jvalListBeq]
  | x :: xs, y :: ys => by
      simp only [jvalListBeq, Bool.and_eq_true, List.cons.injEq]
      exact and_congr (jvalBeq_iff x y) (jvalListBeq_iff xs ys)

/-- `jfieldsBeq` decides equality. -/
theorem jfieldsBeq_iff : ∀ (fs gs : List (String × JVal)),
    jfieldsBeq fs gs = true ↔ fs = gs
  | [], [] => by simp [jfieldsBeq]
  | [], _ :: _ => by simp [jfieldsBeq]
  | _ :: _, [] => by simp [jfieldsBeq]
  | f :: fs, g :: gs => by
      simp only [jfieldsBeq, Bool.and_eq_true, List.cons.injEq, beq_iff_eq]
      constructor
      · rintro ⟨⟨h1, h2⟩, h3⟩
        exact ⟨Prod.ext h1 ((jvalBeq_iff f.2 g.2).mp h2), (jfieldsBeq_iff fs gs).mp h3⟩
      · rintro ⟨h1, h2⟩
        refine ⟨⟨congrArg Prod.fst h1, ?_⟩, (jfieldsBeq_iff fs gs).mpr h2⟩
        exact (jvalBeq_iff f.2 g.2).mpr (congrArg Prod.snd h1)

end

instance : DecidableEq JVal := fun a b =>
  decidable_of_iff (jvalBeq a b = true) (jvalBeq_iff a b)

/-- First-match lookup in an association list (JS property access on an
object; JS objects have unique keys, so first match is the match). `none`
models JavaScript `undefined`. -/
def lookupField : List (String × JVal) → String → Option JVal
  | [], _ => none
  | kv :: rest, k => if kv.1 = k then some kv.2 else lookupField rest k

/-- Property access `v.k`: `undefined` (`none`) unless `v` is an object
carrying the key. -/
def JVal.lookup : JVal → String → Option JVal
  | .obj fs, k => lookupField fs k
  | _, _ => none

/-- JavaScript truthiness of a value. -/
def JVal.truthy : JVal → Bool
  | .null => false
  | .bool b => b
  | .num n => n != 0
  | .str s => s != ""
  | .arr _ => true
  | .obj _ => true

/-- JS `a || b` for an optional string `a` (absent or empty string is falsy). -/
def jsOr (a : Option String) (b : String) : String :=
  match a with
  | some s => if s = "" then b else s
  | none => b

/-- The options object threaded through `esToTable` / `processAggregation` /
`tableToCSV` (only the fields the code reads). -/
structure Options where
  aggregationName : Option String := none
  filterColumnName : Option String := none
  topLevelAggregationName : Option String := none
  currentAggregationName : Option String := none
  delimiter : Option String := none
  includeHeaders : Option Bool := none
deriving DecidableEq, Repr

/-- One step of the accumulated path: `{column, value}`. -/
structure PathEntry where
  column : String
  value : JVal
deriving DecidableEq, Repr

/-- A row: a JS object from column name to cell value, insertion-ordered. -/
abbrev Row := List (String × JVal)

/-- JS property assignment `row[k] = v`: overwrite in place if the key
exists (keeping its position), else append. -/
def setKey (row : Row) (k : String) (v : JVal) : Row :=
  if row.any (fun kv => kv.1 = k) then
    row.map (fun kv => if kv.1 = k then (k, v) else kv)
  else row ++ [(k, v)]

/-- The reserved bucket keys skipped by nested-aggregation and metric
discovery. -/
def reservedKeys : List String :=
  ["key", "key_as_string", "doc_count", "doc_count_error_upper_bound",
   "sum_other_doc_count"]

/-- `getBucketKey`: the preferred key of a bucket, `key_as_string` over
`key`; `none` when neither is defined. -/
def getBucketKey (bucket : JVal) : Option JVal :=
  match bucket.lookup "key_as_string" with
  | some v => some v
  | none => bucket.lookup "key"

/-- `findNestedAggregations`: the non-reserved properties of a bucket whose
value is an object with a `buckets` property, in key order; each is a nested
aggregation named by its property key. -/
def findNestedAggregations (bucket : JVal) : List (String × JVal) :=
  match bucket with
  | .obj fs =>
      fs.filter (fun kv =>
        decide (kv.1 ∉ reservedKeys) &&
        (match kv.2 with
         | .obj gs => (lookupField gs "buckets").isSome
         | _ => false))
  | _ => []

/-- `findMetricAggregations`: the non-reserved properties of a bucket whose
value is a non-array object without a `buckets` property; the metric value is
its `doc_count` if defined, else its `value` if defined, else the property is
skipped. -/
def findMetricAggregations (bucket : JVal) : List (String × JVal) :=
  match bucket with
  | .obj fs =>
      fs.filterMap (fun kv =>
        if kv.1 ∈ reservedKeys then none
        else
          match kv.2 with
          | .obj gs =>
              if (lookupField gs "buckets").isSome then none
              else
                match lookupField gs "doc_count" with
                | some d => some (kv.1, d)
                | none =>
                    match lookupField gs "value" with
                    | some v => some (kv.1, v)
                    | none => none
          | _ => none)
  | _ => []

/-- The path-columns part of a row: each path entry with a truthy column
name is assigned in order (`row[column] = value`). -/
def pathRow (path : List PathEntry) : Row :=
  path.foldl (fun r e => if e.column = "" then r else setKey r e.column e.value) []

/-- `createRowFromBucket`: path columns, then the bucket key under `"key"`
when defined and not already the last path value, then `doc_count`, then the
discovered metrics. -/
def createRowFromBucket (bucket : JVal) (path : List PathEntry) : Row :=
  let row := pathRow path
  let row :=
    match getBucketKey bucket with
    | none => row
    | some bk =>
        match path.getLast? with
        | none => setKey row "key" bk
        | some last => if last.value = bk then row else setKey row "key" bk
  let row :=
    match bucket.lookup "doc_count" with
    | some d => setKey row "doc_count" d
    | none => row
  (findMetricAggregations bucket).foldl (fun r m => setKey r m.1 m.2) row

/-- Column name for a Filters node:
`currentAggregationName || filterColumnName || "filter"`. -/
def filtersColumnName (o : Options) : String :=
  jsOr o.currentAggregationName (jsOr o.filterColumnName "filter")

/-- Column name for a Terms node: `currentAggregationName ||
topLevelAggregationName || aggregationName || "aggregation"`. -/
def termsColumnName (o : Options) : String :=
  jsOr o.currentAggregationName
    (jsOr o.topLevelAggregationName (jsOr o.aggregationName "aggregation"))

/-- Whether a Terms node carries `sum_other_doc_count > 0`. -/
def sumOtherPositive (agg : JVal) : Bool :=
  match agg.lookup "sum_other_doc_count" with
  | some (.num n) => 0 < n
  | _ => false

/-- A looked-up field value is smaller than the field list holding it. -/
theorem lookupField_sizeOf :
    ∀ (fs : List (String × JVal)) (k : String) (v : JVal),
      lookupField fs k = some v → sizeOf v < sizeOf fs := by
  intro fs k v h
  induction fs with
  | nil => simp [lookupField] at h
  | cons kv rest ih =>
      obtain ⟨k', w⟩ := kv
      simp only [lookupField] at h
      by_cases hk : k' = k
      · rw [if_pos hk] at h
        cases h
        simp only [List.cons.sizeOf_spec, Prod.mk.sizeOf_spec]
        omega
      · rw [if_neg hk] at h
        have := ih h
        simp only [List.cons.sizeOf_spec, Prod.mk.sizeOf_spec]
        omega

/-- A looked-up property value is smaller than the object holding it. -/
theorem JVal.lookup_sizeOf (a : JVal) (k : String) (v : JVal)
    (h : a.lookup k = some v) : sizeOf v < sizeOf a := by
  cases a <;> simp only [JVal.lookup] at h <;> try exact absurd h (by simp)
  case obj fs =>
    have := lookupField_sizeOf fs k v h
    simp only [JVal.obj.sizeOf_spec]
    omega

/-- Filtering a list does not increase its size. -/
theorem sizeOf_filter_le {α : Type} [SizeOf α] (p : α → Bool) (l : List α) :
    sizeOf (l.filter p) ≤ sizeOf l := by
  induction l with
  | nil => simp
  | cons a l ih =>
      rw [List.filter_cons]
      by_cases hp : p a
      · simp only [if_pos hp, List.cons.sizeOf_spec]
        omega
      · simp only [if_neg hp, List.cons.sizeOf_spec]
        omega

/-- The discovered nested aggregations are no larger than the bucket. -/
theorem findNestedAggregations_sizeOf (b : JVal) :
    sizeOf (findNestedAggregations b) ≤ sizeOf b := by
  cases b
  case obj fs =>
    simp only [findNestedAggregations, JVal.obj.sizeOf_spec]
    exact le_trans (sizeOf_filter_le _ fs) (Nat.le_add_left _ _)
  all_goals simp only [findNestedAggregations, List.nil.sizeOf_spec,
    JVal.null.sizeOf_spec, JVal.bool.sizeOf_spec, JVal.num.sizeOf_spec,
    JVal.str.sizeOf_spec, JVal.arr.sizeOf_spec]
  all_goals omega

mutual

/-- `processAggregation`: the recursive aggregation walk. A node whose
`buckets` is a (truthy, non-array) object is a Filters node; a node whose
`buckets` is an array is a Terms node and may append an `_other_` remainder
row; any other node contributes no rows. -/
def processAggregation (agg : JVal) (o : Options) (path : List PathEntry) :
    List Row :=
  match hb : agg.lookup "buckets" with
  | some (.obj fs) => processFilterBuckets fs o path (filtersColumnName o)
  | some (.arr bs) =>
      let colName := termsColumnName o
      let rows := processTermsBuckets bs o path colName
      match agg.lookup "sum_other_doc_count" with
      | some (.num n) =>
          if 0 < n then
            rows ++ [createRowFromBucket (.obj [("doc_count", .num n)])
              (path ++ [⟨colName, .str "_other_"⟩])]
          else rows
      | _ => rows
  | _ => []
termination_by sizeOf agg
decreasing_by
  · have := JVal.lookup_sizeOf agg "buckets" (.obj fs) hb
    simp only [JVal.obj.sizeOf_spec] at this
    omega
  · have := JVal.lookup_sizeOf agg "buckets" (.arr bs) hb
    simp only [JVal.arr.sizeOf_spec] at this
    omega

/-- The Filters loop: one path entry `(colName, bucketName)` per named
bucket; recurse into nested aggregations or emit a leaf row. -/
def processFilterBuckets (fs : List (String × JVal)) (o : Options)
    (path : List PathEntry) (colName : String) : List Row :=
  match fs with
  | [] => []
  | kv :: rest =>
      let newPath := path ++ [⟨colName, .str kv.1⟩]
      let here :=
        if (findNestedAggregations kv.2).length > 0 then
          processNestedAggs (findNestedAggregations kv.2) o newPath
        else [createRowFromBucket kv.2 newPath]
      here ++ processFilterBuckets rest o path colName
termination_by sizeOf fs
decreasing_by
  · have h1 := findNestedAggregations_sizeOf kv.2
    have h2 : sizeOf kv.2 < sizeOf kv := by
      obtain ⟨a, b⟩ := kv
      simp only [Prod.mk.sizeOf_spec]
      omega
    simp only [List.cons.sizeOf_spec]
    omega
  · simp only [List.cons.sizeOf_spec]
    omega

/-- The Terms loop: one path entry `(colName, bucketKey)` per bucket when a
key exists; recurse into nested aggregations or emit a leaf row. -/
def processTermsBuckets (bs : List JVal) (o : Options)
    (path : List PathEntry) (colName : String) : List Row :=
  match bs with
  | [] => []
  | b :: rest =>
      let newPath :=
        match getBucketKey b with
        | some k => path ++ [⟨colName, k⟩]
        | none => path
      let here :=
        if (findNestedAggregations b).length > 0 then
          processNestedAggs (findNestedAggregations b) o newPath
        else [createRowFromBucket b newPath]
      here ++ processTermsBuckets rest o path colName
termination_by sizeOf bs
decreasing_by
  · have h1 := findNestedAggregations_sizeOf b
    simp only [List.cons.sizeOf_spec]
    omega
  · simp only [List.cons.sizeOf_spec]
    omega

/-- Recurse into each nested aggregation, setting `currentAggregationName`
to its property key. -/
def processNestedAggs (nested : List (String × JVal)) (o : Options)
    (path : List PathEntry) : List Row :=
  match nested with
  | [] => []
  | (name, aggregation) :: rest =>
      processAggregation aggregation
          { o with currentAggregationName := some name } path
        ++ processNestedAggs rest o path
termination_by sizeOf nested
decreasing_by
  · simp only [List.cons.sizeOf_spec, Prod.mk.sizeOf_spec]
    omega
  · simp only [List.cons.sizeOf_spec]
    omega

end

/-- `isScalar`: null, booleans, numbers and strings are scalar; arrays and
objects are not (JS `v === null || typeof v !== 'object'`). -/
def isScalar : JVal → Bool
  | .null => true
  | .bool _ => true
  | .num _ => true
  | .str _ => true
  | .arr _ => false
  | .obj _ => false

/-- One escaped character of a JSON string literal (the escapes
`JSON.stringify` produces for the characters this data can contain). -/
def jsonEscapeChar (c : Char) : String :=
  if c = '\x22' then "\\\x22"
  else if c = '\\' then "\\\\"
  else if c = '\n' then "\\n"
  else if c = '\r' then "\\r"
  else if c = '\t' then "\\t"
  else String.singleton c

/-- A JSON string literal. -/
def jsonQuote (s : String) : String :=
  "\x22" ++ String.join (s.data.map jsonEscapeChar) ++ "\x22"

mutual

/-- `JSON.stringify` on a value. -/
def jsonStringify : JVal → String
  | .null => "null"
  | .bool true => "true"
  | .bool false => "false"
  | .num n => toString n
  | .str s => jsonQuote s
  | .arr xs => "[" ++ String.intercalate "," (jsonStringifyList xs) ++ "]"
  | .obj fs => "\x7b" ++ String.intercalate "," (jsonStringifyFields fs) ++ "\x7d"

/-- `JSON.stringify` of each array element. -/
def jsonStringifyList : List JVal → List String
  | [] => []
  | x :: xs => jsonStringify x :: jsonStringifyList xs

/-- `JSON.stringify` of each object field. -/
def jsonStringifyFields : List (String × JVal) → List String
  | [] => []
  | (k, v) :: fs => (jsonQuote k ++ ":" ++ jsonStringify v) :: jsonStringifyFields fs

end

/-- `valueToCell`: scalars as-is, non-scalars as their JSON text. -/
def valueToCell (v : JVal) : JVal :=
  if isScalar v then v else .str (jsonStringify v)

mutual

/-- One element of JS `Array.prototype.toString`: null renders empty,
anything else converts like `String(value)`. -/
def jsStringElem : JVal → String
  | .null => ""
  | .bool true => "true"
  | .bool false => "false"
  | .num n => toString n
  | .str s => s
  | .arr xs => String.intercalate "," (jsStringList xs)
  | .obj _ => "[object Object]"

/-- JS `Array.prototype.toString` element conversions, in order. -/
def jsStringList : List JVal → List String
  | [] => []
  | x :: xs => jsStringElem x :: jsStringList xs

end

/-- JS `String(value)` conversion, as applied to CSV cell values. -/
def jsString : JVal → String
  | .null => "null"
  | .bool true => "true"
  | .bool false => "false"
  | .num n => toString n
  | .str s => s
  | .arr xs => String.intercalate "," (jsStringList xs)
  | .obj _ => "[object Object]"

/-- The single-character containment test `str.includes(c)`. -/
def strHasChar (s : String) (c : Char) : Bool :=
  s.data.contains c

/-- The global single-character regex replace `str.replace(/"/g, '""')`:
every quote character doubled. -/
def doubleQuotes (s : String) : String :=
  String.join (s.data.map (fun c =>
    if c = '\x22' then "\x22\x22" else String.singleton c))

/-- `escapeCSV`: null renders empty; a cell is wrapped in double quotes with
internal quotes doubled when its text contains a comma, a newline or a quote
character (the comma is hard-coded in the source, independent of the
configured delimiter). -/
def escapeCSV (value : JVal) : String :=
  if value = .null then ""
  else
    let s := jsString value
    if strHasChar s ',' || strHasChar s '\n' || strHasChar s '\x22' then
      "\x22" ++ doubleQuotes s ++ "\x22"
    else s

/-- One rendered cell of `tableToCSV`: the row's value at the column when
defined and non-null, else the empty string, passed through `escapeCSV`. -/
def csvCell (row : Row) (h : String) : String :=
  escapeCSV
    (match lookupField row h with
     | some v => if v = .null then .str "" else v
     | none => .str "")

/-- `tableToCSV`: empty table renders as the empty string; otherwise the
header is the first row's column list (emitted unless `includeHeaders` is
`false`), and every row is rendered against that header, each record ending
in a newline. -/
def tableToCSV (table : List Row) (o : Options) : String :=
  match table with
  | [] => ""
  | first :: _ =>
      let headers := first.map Prod.fst
      let delimiter := jsOr o.delimiter ","
      let headerPart :=
        if o.includeHeaders ≠ some false then
          String.intercalate delimiter (headers.map (fun h => escapeCSV (.str h))) ++ "\n"
        else ""
      headerPart ++ String.join (table.map (fun row =>
        String.intercalate delimiter (headers.map (csvCell row)) ++ "\n"))

/-- The source-object fields of a hit (`hit._source || {}`; `_source` is an
object in the data model). -/
def hitSourceFields (h : JVal) : List (String × JVal) :=
  match h.lookup "_source" with
  | some (.obj fs) => fs
  | _ => []

/-- One step of first-seen column accumulation: append a source key unless
already seen. -/
def colStep (cs : List String) (kv : String × JVal) : List String :=
  if kv.1 ∈ cs then cs else cs ++ [kv.1]

/-- Accumulate one hit's source keys onto the column list. -/
def hitColsStep (cols : List String) (h : JVal) : List String :=
  (hitSourceFields h).foldl colStep cols

/-- The hits-mode column list: `_id`, then every source key in first-seen
order across hits. -/
def hitsColumns (hits : List JVal) : List String :=
  hits.foldl hitColsStep ["_id"]

/-- The cell for one hit and column: absent source field renders as the
empty string, present fields go through `valueToCell`. -/
def hitCell (h : JVal) (c : String) : JVal :=
  match lookupField (hitSourceFields h) c with
  | some v => valueToCell v
  | none => .str ""

/-- One step of hits-mode row building: skip the `_id` column, assign every
other column its cell. -/
def hitRowStep (h : JVal) (r : Row) (c : String) : Row :=
  if c = "_id" then r else setKey r c (hitCell h c)

/-- One hits-mode row: `_id` first, then each non-`_id` column in column
order. A hit with no `_id` gets a null cell (JS stores `undefined` there;
both render as the empty cell in CSV). -/
def hitToRow (cols : List String) (h : JVal) : Row :=
  cols.foldl (hitRowStep h) [("_id", (h.lookup "_id").getD .null)]

/-- `hitsToTable`: one row per hit, in hit order. -/
def hitsToTable (hits : List JVal) : List Row :=
  hits.map (hitToRow (hitsColumns hits))

/-- The error kinds `esToTable` can raise. -/
inductive EsError where
  | aggregationNotFound (name : String) : EsError
  | noData : EsError
deriving DecidableEq, Repr

/-- `esOutput.hits?.hits`. -/
def getHits (esOutput : JVal) : Option JVal :=
  match esOutput.lookup "hits" with
  | some h => h.lookup "hits"
  | none => none

/-- `esToTable`: with a non-empty `aggregations` mapping, select the
aggregation named by the `aggregationName` option (else the first key),
fail with `aggregationNotFound` when it is absent, and run the walk with
`topLevelAggregationName` set to the chosen name and `filterColumnName`
defaulted to it; else with a non-empty `hits.hits` array, build the hits
table; else fail with `noData`. -/
def esToTable (esOutput : JVal) (o : Options) : Except EsError (List Row) :=
  match esOutput.lookup "aggregations" with
  | some (.obj (kv :: rest)) =>
      let aggName := jsOr o.aggregationName kv.1
      match lookupField (kv :: rest) aggName with
      | some aggregation =>
          if aggregation.truthy then
            Except.ok (processAggregation aggregation
              { o with
                  topLevelAggregationName := some aggName,
                  filterColumnName := some (jsOr o.filterColumnName aggName) } [])
          else Except.error (.aggregationNotFound aggName)
      | none => Except.error (.aggregationNotFound aggName)
  | _ =>
      match getHits esOutput with
      | some (.arr (h :: hs)) => Except.ok (hitsToTable (h :: hs))
      | _ => Except.error .noData

/-! Lemmas about rows and lookups. -/

/-- The Filters loop on no buckets emits nothing. -/
theorem processFilterBuckets_nil (o : Options) (path : List PathEntry)
    (c : String) : processFilterBuckets [] o path c = [] := by
  rw [processFilterBuckets]

/-- The Terms loop on no buckets emits nothing. -/
theorem processTermsBuckets_nil (o : Options) (path : List PathEntry)
    (c : String) : processTermsBuckets [] o path c = [] := by
  rw [processTermsBuckets]

/-- Recursion into no nested aggregations emits nothing. -/
theorem processNestedAggs_nil (o : Options) (path : List PathEntry) :
    processNestedAggs [] o path = [] := by
  rw [processNestedAggs]

/-- One Filters step: emit the named bucket (or recurse into its nested
aggregations), then the remaining buckets. -/
theorem processFilterBuckets_cons (kv : String × JVal)
    (rest : List (String × JVal)) (o : Options) (path : List PathEntry)
    (c : String) :
    processFilterBuckets (kv :: rest) o path c =
      (if (findNestedAggregations kv.2).length > 0 then
          processNestedAggs (findNestedAggregations kv.2) o
            (path ++ [⟨c, .str kv.1⟩])
        else [createRowFromBucket kv.2 (path ++ [⟨c, .str kv.1⟩])]) ++
        processFilterBuckets rest o path c := by
  rw [processFilterBuckets]

/-- One Terms step: emit the bucket (or recurse into its nested
aggregations), then the remaining buckets. -/
theorem processTermsBuckets_cons (b : JVal) (rest : List JVal) (o : Options)
    (path : List PathEntry) (c : String) :
    processTermsBuckets (b :: rest) o path c =
      (if (findNestedAggregations b).length > 0 then
          processNestedAggs (findNestedAggregations b) o
            (match getBucketKey b with
             | some k => path ++ [⟨c, k⟩]
             | none => path)
        else [createRowFromBucket b
          (match getBucketKey b with
           | some k => path ++ [⟨c, k⟩]
           | none => path)]) ++
        processTermsBuckets rest o path c := by
  rw [processTermsBuckets]

/-- One nested-aggregation step: walk it under its name, then the rest. -/
theorem processNestedAggs_cons (na : String × JVal)
    (rest : List (String × JVal)) (o : Options) (path : List PathEntry) :
    processNestedAggs (na :: rest) o path =
      processAggregation na.2
          { o with currentAggregationName := some na.1 } path ++
        processNestedAggs rest o path := by
  obtain ⟨name, aggregation⟩ := na
  rw [processNestedAggs]

/-- A node whose `buckets` is an object walks the Filters loop. -/
theorem processAggregation_filters (agg : JVal) (o : Options)
    (path : List PathEntry) (fs : List (String × JVal))
    (hb : agg.lookup "buckets" = some (.obj fs)) :
    processAggregation agg o path =
      processFilterBuckets fs o path (filtersColumnName o) := by
  rw [processAggregation, hb]

/-- A Filters bucket with nested aggregations recurses into them. -/
theorem processFilterBuckets_cons_nested (kv : String × JVal)
    (rest : List (String × JVal)) (o : Options) (path : List PathEntry)
    (c : String) (nested : List (String × JVal))
    (hn : findNestedAggregations kv.2 = nested) (hne : nested ≠ []) :
    processFilterBuckets (kv :: rest) o path c =
      processNestedAggs nested o (path ++ [⟨c, .str kv.1⟩]) ++
        processFilterBuckets rest o path c := by
  rw [processFilterBuckets_cons, hn,
    if_pos (by simpa using List.length_pos.mpr hne)]

/-- A leaf Filters bucket emits one row. -/
theorem processFilterBuckets_cons_leaf (kv : String × JVal)
    (rest : List (String × JVal)) (o : Options) (path : List PathEntry)
    (c : String) (hn : findNestedAggregations kv.2 = []) :
    processFilterBuckets (kv :: rest) o path c =
      createRowFromBucket kv.2 (path ++ [⟨c, .str kv.1⟩]) ::
        processFilterBuckets rest o path c := by
  rw [processFilterBuckets_cons, hn]
  simp

/-- Lookup misses exactly the keys outside the row. -/
theorem lookupField_eq_none_iff (r : Row) (k : String) :
    lookupField r k = none ↔ k ∉ r.map Prod.fst := by
  induction r with
  | nil => simp [lookupField]
  | cons kv rest ih =>
      by_cases hk : kv.1 = k
      · simp [lookupField, hk]
      · simp [lookupField, hk, ih, Ne.symm hk]

/-- A row key test by `List.any` agrees with key membership. -/
theorem any_key_iff (r : Row) (k : String) :
    (r.any (fun kv => kv.1 = k)) = true ↔ k ∈ r.map Prod.fst := by
  simp only [List.any_eq_true, decide_eq_true_eq, List.mem_map]

/-- Lookup distributes over append, first list first. -/
theorem lookupField_append (r s : Row) (c : String) :
    lookupField (r ++ s) c =
      match lookupField r c with
      | some v => some v
      | none => lookupField s c := by
  induction r with
  | nil => simp [lookupField]
  | cons a rest ih =>
      by_cases ha : a.1 = c
      · simp [lookupField, ha]
      · simp [lookupField, ha, ih]

/-- Lookup after the in-place overwrite that `setKey` performs on an
existing key. -/
theorem lookupField_overwrite (r : Row) (k c : String) (v : JVal) :
    lookupField (r.map (fun kv => if kv.1 = k then (k, v) else kv)) c =
      if c = k then (lookupField r k).map (fun _ => v) else lookupField r c := by
  induction r with
  | nil => by_cases h : c = k <;> simp [lookupField, h]
  | cons a rest ih =>
      obtain ⟨a1, a2⟩ := a
      by_cases hak : a1 = k
      · subst hak
        by_cases hck : c = a1
        · subst hck
          simp [lookupField]
        · simp [lookupField, hck, Ne.symm hck, ih]
      · by_cases hac : a1 = c
        · subst hac
          have hck : ¬(a1 = k) := hak
          simp [lookupField, hak, hck]
        · simp only [List.map_cons, if_neg hak, lookupField, if_neg hac]
          exact ih

/-- Full description of lookup after `setKey`. -/
theorem lookupField_setKey (r : Row) (k c : String) (v : JVal) :
    lookupField (setKey r k v) c =
      if c = k then some v else lookupField r c := by
  unfold setKey
  by_cases h : r.any (fun kv => kv.1 = k)
  · rw [if_pos h, lookupField_overwrite]
    by_cases hck : c = k
    · rw [if_pos hck, if_pos hck]
      have hmem : k ∈ r.map Prod.fst := (any_key_iff r k).mp h
      cases hlk : lookupField r k with
      | none => exact absurd ((lookupField_eq_none_iff r k).mp hlk) (by simpa using hmem)
      | some w => simp
    · rw [if_neg hck, if_neg hck]
  · rw [if_neg h, lookupField_append]
    by_cases hck : c = k
    · subst hck
      have hnone : lookupField r c = none := by
        rw [lookupField_eq_none_iff]
        intro hc
        exact h ((any_key_iff r c).mpr hc)
      rw [hnone, if_pos rfl]
      simp [lookupField]
    · rw [if_neg hck]
      cases hl : lookupField r c with
      | none => simp [lookupField, Ne.symm hck]
      | some w => simp

/-- The keys after an assignment are the old keys plus the assigned key. -/
theorem mem_keys_setKey (r : Row) (k c : String) (v : JVal) :
    c ∈ (setKey r k v).map Prod.fst ↔ c ∈ r.map Prod.fst ∨ c = k := by
  have h1 := lookupField_eq_none_iff (setKey r k v) c
  have h2 := lookupField_eq_none_iff r c
  rw [lookupField_setKey] at h1
  by_cases hck : c = k
  · rw [if_pos hck] at h1
    constructor
    · intro _
      exact Or.inr hck
    · intro _
      by_contra hc
      exact absurd (h1.mpr hc) (by simp)
  · rw [if_neg hck] at h1
    have h4 := not_iff_not.mp (h1.symm.trans h2)
    rw [h4]
    simp [hck]

/-- Appending one path entry folds as one assignment (or a skip for an
untruthy column name). -/
theorem pathRow_append_single (p : List PathEntry) (e : PathEntry) :
    pathRow (p ++ [e]) =
      if e.column = "" then pathRow p else setKey (pathRow p) e.column e.value := by
  unfold pathRow
  rw [List.foldl_append]
  simp

/-- Path-derived rows only hold path column names. -/
theorem mem_keys_pathRow (p : List PathEntry) (c : String)
    (h : c ∈ (pathRow p).map Prod.fst) : c ∈ p.map PathEntry.column := by
  induction p using List.reverseRecOn with
  | nil => simp [pathRow] at h
  | append_singleton p e ih =>
      rw [pathRow_append_single] at h
      by_cases he : e.column = ""
      · rw [if_pos he] at h
        simp only [List.map_append]
        exact List.mem_append_left _ (ih h)
      · rw [if_neg he] at h
        rw [mem_keys_setKey] at h
        simp only [List.map_append, List.map_cons, List.map_nil]
        rcases h with h | h
        · exact List.mem_append_left _ (ih h)
        · exact List.mem_append_right _ (by simp [h])

/-- Lookup in a path-derived row misses non-path columns. -/
theorem lookupField_pathRow_not_mem (p : List PathEntry) (c : String)
    (h : c ∉ p.map PathEntry.column) : lookupField (pathRow p) c = none := by
  rw [lookupField_eq_none_iff]
  exact fun hc => h (mem_keys_pathRow p c hc)

/-- Every discovered metric is named by a non-reserved bucket key. -/
theorem findMetricAggregations_not_reserved (bucket : JVal) :
    ∀ m ∈ findMetricAggregations bucket, m.1 ∉ reservedKeys := by
  intro m hm
  cases bucket <;> simp only [findMetricAggregations] at hm
  case obj fs =>
    rw [List.mem_filterMap] at hm
    obtain ⟨kv, hkv, hf⟩ := hm
    by_cases hr : kv.1 ∈ reservedKeys
    · rw [if_pos hr] at hf
      cases hf
    · rw [if_neg hr] at hf
      intro hmr
      apply hr
      split at hf
      · split at hf
        · cases hf
        · split at hf
          · cases hf
            exact hmr
          · split at hf
            · cases hf
              exact hmr
            · cases hf
      · cases hf
  all_goals cases hm

/-- Folding metric assignments does not touch other columns. -/
theorem lookupField_foldl_setKey_ne (ms : List (String × JVal)) (r : Row)
    (c : String) (h : ∀ m ∈ ms, m.1 ≠ c) :
    lookupField (ms.foldl (fun r m => setKey r m.1 m.2) r) c = lookupField r c := by
  induction ms generalizing r with
  | nil => rfl
  | cons m rest ih =>
      simp only [List.foldl_cons]
      rw [ih _ (fun x hx => h x (by simp [hx]))]
      rw [lookupField_setKey, if_neg (fun hc => h m (by simp) hc.symm)]

/-- Keys after folding metric assignments: the old keys plus metric names. -/
theorem mem_keys_foldl_setKey (ms : List (String × JVal)) (r : Row) (c : String)
    (h : c ∈ (ms.foldl (fun r m => setKey r m.1 m.2) r).map Prod.fst) :
    c ∈ r.map Prod.fst ∨ c ∈ ms.map Prod.fst := by
  induction ms generalizing r with
  | nil => exact Or.inl h
  | cons m rest ih =>
      simp only [List.foldl_cons] at h
      rcases ih _ h with h1 | h1
      · rw [mem_keys_setKey] at h1
        rcases h1 with h1 | h1
        · exact Or.inl h1
        · exact Or.inr (by simp [h1])
      · exact Or.inr (by simp [h1])

/-! The claim theorems. -/

/-- The CSV quoting rule as the specification's words describe the code:
quote when the text contains a comma, a newline or a quote character. -/
def specQuotedCell (s : String) : String :=
  if strHasChar s ',' || strHasChar s '\n' || strHasChar s '\x22' then
    "\x22" ++ doubleQuotes s ++ "\x22"
  else s

/-- C4 (counterexample): with configured delimiter `";"`, the cell `"x;y"`
contains the delimiter yet is emitted unquoted — the output is `a\nx;y\n`,
not the `a\n"x;y"\n` the claim requires. -/
theorem csv_delimiter_quoting_counterexample :
    tableToCSV [[("a", JVal.str "x;y")]] { delimiter := some ";" } =
        "a\nx;y\n" ∧
      "a\nx;y\n" ≠ "a\n\x22x;y\x22\n" := by
  constructor
  · decide
  · decide

/-- C4 (amended): a cell is quoted (with internal quotes doubled) exactly
when its text contains a comma — hard-coded, regardless of the configured
delimiter — a newline, or a quote character; null renders empty. -/
theorem escapeCSV_quoting_rule (v : JVal) :
    escapeCSV v = if v = JVal.null then "" else specQuotedCell (jsString v) := by
  by_cases hv : v = JVal.null
  · rw [escapeCSV, if_pos hv, if_pos hv]
  · rw [escapeCSV, if_neg hv, if_neg hv, specQuotedCell]

/-- C10: an empty table renders as the empty string whatever the options,
header emission included; any non-empty table with header emission enabled
(the default) starts with the header line built from the first row. -/
theorem tableToCSV_empty_and_header (o : Options) (r : Row) (t : List Row) :
    tableToCSV [] o = "" ∧
      (o.includeHeaders ≠ some false →
        tableToCSV (r :: t) o =
          String.intercalate (jsOr o.delimiter ",")
              ((r.map Prod.fst).map (fun h => escapeCSV (.str h))) ++ "\n" ++
            String.join ((r :: t).map (fun row =>
              String.intercalate (jsOr o.delimiter ",")
                ((r.map Prod.fst).map (csvCell row)) ++ "\n"))) := by
  constructor
  · rfl
  · intro hh
    rw [tableToCSV]
    simp only [if_pos hh]

/-- Restricting a row to a set of keys preserves lookups inside the set. -/
theorem lookupField_filter_mem (r : Row) (keys : List String) (h : String)
    (hh : h ∈ keys) :
    lookupField (r.filter (fun kv => kv.1 ∈ keys)) h = lookupField r h := by
  induction r with
  | nil => rfl
  | cons a rest ih =>
      by_cases hah : a.1 = h
      · have : a.1 ∈ keys := hah ▸ hh
        rw [List.filter_cons, if_pos (by simpa using this)]
        rw [lookupField, if_pos hah, lookupField, if_pos hah]
      · by_cases hak : a.1 ∈ keys
        · rw [List.filter_cons, if_pos (by simpa using hak)]
          rw [lookupField, if_neg hah, lookupField, if_neg hah, ih]
        · rw [List.filter_cons, if_neg (by simpa using hak)]
          rw [ih, lookupField, if_neg hah]

/-- C5: the CSV header comes from the first row alone — dropping from every
later row the columns absent from the first row leaves the output unchanged
(those values never render) — and a header column that a row lacks, or holds
null at, renders as the empty string. -/
theorem tableToCSV_first_row_header (r0 : Row) (rest : List Row) (o : Options) :
    tableToCSV (r0 :: rest) o =
        tableToCSV
          (r0 :: rest.map (fun r => r.filter (fun kv => kv.1 ∈ r0.map Prod.fst)))
          o ∧
      (∀ (row : Row) (h : String),
        lookupField row h = none ∨ lookupField row h = some .null →
          csvCell row h = "") := by
  constructor
  · have hmap : ∀ r : Row,
        List.map (csvCell (r.filter (fun kv => kv.1 ∈ r0.map Prod.fst)))
            (r0.map Prod.fst) =
          List.map (csvCell r) (r0.map Prod.fst) := by
      intro r
      apply List.map_congr_left
      intro h hh
      unfold csvCell
      rw [lookupField_filter_mem r (r0.map Prod.fst) h hh]
    rw [tableToCSV, tableToCSV]
    congr 1
    congr 1
    simp only [List.map_cons]
    congr 1
    rw [List.map_map]
    apply List.map_congr_left
    intro r hr
    simp only [Function.comp_apply]
    rw [hmap r]
  · intro row h hl
    unfold csvCell
    rcases hl with hl | hl <;> rw [hl]
    · show escapeCSV (JVal.str "") = ""
      decide
    · show escapeCSV (JVal.str "") = ""
      decide

/-- Metric names never collide with a fixed reserved column. -/
theorem findMetricAggregations_ne_of_reserved (bucket : JVal) (c : String)
    (hc : c ∈ reservedKeys) :
    ∀ m ∈ findMetricAggregations bucket, m.1 ≠ c := by
  intro m hm he
  exact (findMetricAggregations_not_reserved bucket m hm) (he ▸ hc)

/-- C3: the RowAssembler adds a `"key"` column holding the bucket's own key
(`key_as_string` preferred) exactly when that key is defined and the path is
empty or its last entry's value differs from the key; when the key equals the
last path value, no `"key"` column appears. -/
theorem createRowFromBucket_key_column (bucket : JVal) (path : List PathEntry)
    (hp : "key" ∉ path.map PathEntry.column) :
    lookupField (createRowFromBucket bucket path) "key" =
      match getBucketKey bucket with
      | none => none
      | some bk =>
          match path.getLast? with
          | none => some bk
          | some last => if last.value = bk then none else some bk := by
  unfold createRowFromBucket
  have hpath : lookupField (pathRow path) "key" = none :=
    lookupField_pathRow_not_mem path "key" hp
  have hmet : ∀ r : Row,
      lookupField
          ((findMetricAggregations bucket).foldl (fun r m => setKey r m.1 m.2) r)
          "key" =
        lookupField r "key" := by
    intro r
    exact lookupField_foldl_setKey_ne _ r "key"
      (findMetricAggregations_ne_of_reserved bucket "key" (by simp [reservedKeys]))
  have hdoc : ∀ r : Row,
      lookupField
          (match bucket.lookup "doc_count" with
           | some d => setKey r "doc_count" d
           | none => r) "key" =
        lookupField r "key" := by
    intro r
    rcases hdc : bucket.lookup "doc_count" with _ | d <;> simp only [hdc]
    rw [lookupField_setKey]
    simp
  rcases hgk : getBucketKey bucket with _ | bk <;> simp only [hgk]
  · rw [hmet, hdoc, hpath]
  · rcases hl : path.getLast? with _ | last <;> simp only [hl]
    · rw [hmet, hdoc, lookupField_setKey, if_pos rfl]
    · by_cases hv : last.value = bk
      · rw [if_pos hv, if_pos hv, hmet, hdoc, hpath]
      · rw [if_neg hv, if_neg hv, hmet, hdoc, lookupField_setKey, if_pos rfl]

/-- C7: `key_as_string` wins over `key`: when both are defined the bucket
key is `key_as_string`, the Terms walk folds it into the path entry, and the
emitted leaf row carries it in the aggregation's column. -/
theorem bucket_key_prefers_key_as_string (bucket : JVal) (ks k0 : JVal)
    (h1 : bucket.lookup "key_as_string" = some ks)
    (h2 : bucket.lookup "key" = some k0) :
    getBucketKey bucket = some ks ∧
      (ks ≠ k0 → getBucketKey bucket ≠ some k0) ∧
      (∀ (bs : List JVal) (o : Options) (path : List PathEntry) (c : String),
        findNestedAggregations bucket = [] →
        processTermsBuckets (bucket :: bs) o path c =
          createRowFromBucket bucket (path ++ [⟨c, ks⟩]) ::
            processTermsBuckets bs o path c) ∧
      (∀ (path : List PathEntry) (c : String),
        c ≠ "" → c ≠ "key" → c ≠ "doc_count" →
        (∀ m ∈ findMetricAggregations bucket, m.1 ≠ c) →
        lookupField (createRowFromBucket bucket (path ++ [⟨c, ks⟩])) c = some ks) := by
  have hgk : getBucketKey bucket = some ks := by
    unfold getBucketKey
    rw [h1]
  refine ⟨hgk, ?_, ?_, ?_⟩
  · intro hne heq
    rw [hgk] at heq
    exact hne (Option.some.injEq .. ▸ heq)
  · intro bs o path c hn
    rw [processTermsBuckets]
    simp only [hgk, hn, List.length_nil, gt_iff_lt, lt_self_iff_false,
      if_false, List.singleton_append]
  · intro path c hc1 hc2 hc3 hm
    unfold createRowFromBucket
    rw [lookupField_foldl_setKey_ne _ _ c hm]
    have hdoc : ∀ r : Row,
        lookupField
            (match bucket.lookup "doc_count" with
             | some d => setKey r "doc_count" d
             | none => r) c =
          lookupField r c := by
      intro r
      rcases hdc : bucket.lookup "doc_count" with _ | d <;> simp only [hdc]
      rw [lookupField_setKey, if_neg hc3]
    rw [hdoc]
    simp only [hgk, List.getLast?_concat, if_true]
    rw [pathRow_append_single]
    simp only [if_neg hc1]
    rw [lookupField_setKey]
    simp
/-- Column names of a path extended by one entry. -/
theorem map_column_append (path : List PathEntry) (e : PathEntry) :
    (path ++ [e]).map PathEntry.column = path.map PathEntry.column ++ [e.column] := by
  simp

/-- C1: a Terms node carrying `sum_other_doc_count > 0` emits exactly one
remainder row after all rows of its explicit buckets; that row holds
`"_other_"` in the aggregation's column and the remainder count in
`doc_count`, has no `"key"` column, and carries no columns besides the path
columns, the aggregation's column and `doc_count`. -/
theorem terms_remainder_row (agg : JVal) (o : Options) (path : List PathEntry)
    (bs : List JVal) (n : Int)
    (hb : agg.lookup "buckets" = some (.arr bs))
    (hs : agg.lookup "sum_other_doc_count" = some (.num n))
    (hn : 0 < n)
    (hpk : "key" ∉ path.map PathEntry.column)
    (hc1 : termsColumnName o ≠ "key")
    (hc2 : termsColumnName o ≠ "doc_count")
    (hc3 : termsColumnName o ≠ "") :
    ∃ other : Row,
      processAggregation agg o path =
          processTermsBuckets bs o path (termsColumnName o) ++ [other] ∧
        lookupField other (termsColumnName o) = some (.str "_other_") ∧
        lookupField other "doc_count" = some (.num n) ∧
        lookupField other "key" = none ∧
        ∀ c ∈ other.map Prod.fst,
          c ∈ path.map PathEntry.column ∨ c = termsColumnName o ∨ c = "doc_count" := by
  refine ⟨createRowFromBucket (.obj [("doc_count", .num n)])
    (path ++ [⟨termsColumnName o, .str "_other_"⟩]), ?_, ?_, ?_, ?_, ?_⟩
  · rw [processAggregation, hb]
    simp only [hs, hn, if_pos]
  all_goals
    have hrow : createRowFromBucket (.obj [("doc_count", .num n)])
        (path ++ [⟨termsColumnName o, .str "_other_"⟩]) =
        setKey (pathRow (path ++ [⟨termsColumnName o, .str "_other_"⟩]))
          "doc_count" (.num n) := rfl
  · rw [hrow, lookupField_setKey, if_neg hc2, pathRow_append_single]
    simp only [if_neg hc3]
    rw [lookupField_setKey]
    simp
  · rw [hrow, lookupField_setKey, if_pos rfl]
  · rw [hrow, lookupField_setKey, if_neg (by decide)]
    apply lookupField_pathRow_not_mem
    rw [map_column_append]
    intro hmem
    rcases List.mem_append.mp hmem with h | h
    · exact hpk h
    · simp only [List.mem_singleton] at h
      exact hc1 h.symm
  · intro c hc
    rw [hrow] at hc
    rcases (mem_keys_setKey _ _ _ _).mp hc with h | h
    · have := mem_keys_pathRow _ _ h
      rw [map_column_append] at this
      rcases List.mem_append.mp this with h1 | h1
      · exact Or.inl h1
      · simp only [List.mem_singleton] at h1
        exact Or.inr (Or.inl h1)
    · exact Or.inr (Or.inr h)

/-- A Terms loop over leaf buckets emits exactly one row per bucket. -/
theorem processTermsBuckets_leaf_length (bs : List JVal) (o : Options)
    (path : List PathEntry) (c : String)
    (h : ∀ b ∈ bs, findNestedAggregations b = []) :
    (processTermsBuckets bs o path c).length = bs.length := by
  induction bs generalizing path with
  | nil =>
      rw [processTermsBuckets]
      rfl
  | cons b rest ih =>
      rw [processTermsBuckets]
      have hb := h b (by simp)
      simp only [hb, List.length_nil, gt_iff_lt, lt_self_iff_false, if_false,
        List.length_append, List.length_cons, List.singleton_append]
      rw [ih path (fun x hx => h x (by simp [hx]))]

/-- C6: a response whose selected aggregation is a Terms node with `N`
buckets, none nested, yields exactly `N` rows, plus one more when
`sum_other_doc_count > 0`. -/
theorem esToTable_terms_row_count (resp agg : JVal) (aname : String)
    (o : Options) (bs : List JVal)
    (hr : resp.lookup "aggregations" = some (.obj [(aname, agg)]))
    (ho : o.aggregationName = none)
    (hb : agg.lookup "buckets" = some (.arr bs))
    (hleaf : ∀ b ∈ bs, findNestedAggregations b = []) :
    ∃ rows : List Row, esToTable resp o = Except.ok rows ∧
      rows.length = bs.length + (if sumOtherPositive agg then 1 else 0) := by
  have hobj : ∃ af, agg = .obj af := by
    cases agg <;> simp [JVal.lookup] at hb
    exact ⟨_, rfl⟩
  obtain ⟨af, haf⟩ := hobj
  refine ⟨processAggregation agg
    { o with
        topLevelAggregationName := some (jsOr o.aggregationName aname),
        filterColumnName :=
          some (jsOr o.filterColumnName (jsOr o.aggregationName aname)) } [], ?_, ?_⟩
  · rw [esToTable]
    simp only [hr]
    rw [ho]
    simp only [jsOr, lookupField, if_pos rfl, haf, JVal.truthy, if_pos]
  · rw [processAggregation, hb]
    rcases hso : agg.lookup "sum_other_doc_count" with _ | v
    · simp only [hso]
      rw [processTermsBuckets_leaf_length _ _ _ _ hleaf]
      simp [sumOtherPositive, hso]
    · rcases v with _ | b0 | n | s | xs | fs <;> simp only [hso]
      case num =>
        by_cases hn : 0 < n
        · rw [if_pos hn]
          simp only [List.length_append, List.length_cons, List.length_nil]
          rw [processTermsBuckets_leaf_length _ _ _ _ hleaf]
          simp [sumOtherPositive, hso, hn]
        · rw [if_neg hn]
          rw [processTermsBuckets_leaf_length _ _ _ _ hleaf]
          simp [sumOtherPositive, hso, hn]
      all_goals
        rw [processTermsBuckets_leaf_length _ _ _ _ hleaf]
      all_goals simp [sumOtherPositive, hso]

/-- A row built from a bucket agrees with its path row on every column that
is neither `"key"` nor `"doc_count"` nor a discovered metric name. -/
theorem lookupField_createRowFromBucket_path (bucket : JVal)
    (path : List PathEntry) (c : String)
    (hc2 : c ≠ "key") (hc3 : c ≠ "doc_count")
    (hm : ∀ m ∈ findMetricAggregations bucket, m.1 ≠ c) :
    lookupField (createRowFromBucket bucket path) c =
      lookupField (pathRow path) c := by
  unfold createRowFromBucket
  rw [lookupField_foldl_setKey_ne _ _ c hm]
  have hdoc : ∀ r : Row,
      lookupField
          (match bucket.lookup "doc_count" with
           | some d => setKey r "doc_count" d
           | none => r) c =
        lookupField r c := by
    intro r
    rcases hdc : bucket.lookup "doc_count" with _ | d <;> simp only [hdc]
    rw [lookupField_setKey, if_neg hc3]
  rw [hdoc]
  rcases hgk : getBucketKey bucket with _ | bk <;> simp only [hgk]
  rcases hl : path.getLast? with _ | last <;> simp only [hl]
  · rw [lookupField_setKey, if_neg hc2]
  · by_cases hv : last.value = bk
    · rw [if_pos hv]
    · rw [if_neg hv, lookupField_setKey, if_neg hc2]

/-- C2: the Filters column-name precedence — `currentAggregationName`, else
`filterColumnName`, else `"filter"` — and the nested scenario: a Filters
aggregation named `Y` nested in a bucket of a top-level Filters aggregation
named `X` (no `filterColumnName` option) writes the nested bucket name into
a column named `Y`, the outer one into `X`. -/
theorem filters_column_naming (o : Options) :
    (∀ c, o.currentAggregationName = some c → c ≠ "" →
      filtersColumnName o = c) ∧
    (∀ f, o.currentAggregationName = none → o.filterColumnName = some f →
      f ≠ "" → filtersColumnName o = f) ∧
    (o.currentAggregationName = none → o.filterColumnName = none →
      filtersColumnName o = "filter") ∧
    (∀ (agg : JVal) (fs : List (String × JVal)) (path : List PathEntry),
      agg.lookup "buckets" = some (.obj fs) →
      processAggregation agg o path =
        processFilterBuckets fs o path (filtersColumnName o)) ∧
    (∀ (X Y fname gname : String) (bucketX aggY leaf resp : JVal),
      X ≠ "" → Y ≠ "" → Y ≠ X → X ≠ "key" → X ≠ "doc_count" →
      Y ≠ "key" → Y ≠ "doc_count" →
      resp.lookup "aggregations" =
        some (.obj [(X, .obj [("buckets", .obj [(fname, bucketX)])])]) →
      findNestedAggregations bucketX = [(Y, aggY)] →
      aggY.lookup "buckets" = some (.obj [(gname, leaf)]) →
      findNestedAggregations leaf = [] →
      (∀ m ∈ findMetricAggregations leaf, m.1 ≠ X ∧ m.1 ≠ Y) →
      ∃ row : Row, esToTable resp {} = Except.ok [row] ∧
        lookupField row X = some (.str fname) ∧
        lookupField row Y = some (.str gname)) := by
  refine ⟨?_, ?_, ?_, ?_, ?_⟩
  · intro c hc hne
    unfold filtersColumnName
    rw [hc]
    simp [jsOr, hne]
  · intro f hc hf hne
    unfold filtersColumnName
    rw [hc, hf]
    simp [jsOr, hne]
  · intro hc hf
    unfold filtersColumnName
    rw [hc, hf]
    rfl
  · intro agg fs path hb
    rw [processAggregation, hb]
  · intro X Y fname gname bucketX aggY leaf resp hX hY hYX hXk hXd hYk hYd
      hresp hnX hbY hnleaf hmet
    refine ⟨createRowFromBucket leaf [⟨X, .str fname⟩, ⟨Y, .str gname⟩],
      ?_, ?_, ?_⟩
    · have hdisp : esToTable resp {} =
          Except.ok (processAggregation
            (JVal.obj [("buckets", JVal.obj [(fname, bucketX)])])
            { aggregationName := none, filterColumnName := some X,
              topLevelAggregationName := some X, currentAggregationName := none,
              delimiter := none, includeHeaders := none } []) := by
        simp [esToTable, hresp, jsOr, lookupField, JVal.truthy]
      rw [hdisp]
      congr 1
      rw [processAggregation_filters _ _ _ _
        (show (JVal.obj [("buckets", JVal.obj [(fname, bucketX)])]).lookup
          "buckets" = some (JVal.obj [(fname, bucketX)]) from rfl)]
      have hcolX : filtersColumnName
          { aggregationName := none, filterColumnName := some X,
            topLevelAggregationName := some X, currentAggregationName := none,
            delimiter := none, includeHeaders := none } = X := by
        unfold filtersColumnName
        simp [jsOr, hX]
      rw [hcolX, processFilterBuckets_cons_nested _ _ _ _ _ _ hnX (by simp),
        processFilterBuckets_nil, processNestedAggs_cons, processNestedAggs_nil]
      rw [processAggregation_filters _ _ _ _ hbY]
      have hcolY : filtersColumnName
          { aggregationName := none, filterColumnName := some X,
            topLevelAggregationName := some X,
            currentAggregationName := some Y,
            delimiter := none, includeHeaders := none } = Y := by
        unfold filtersColumnName
        simp [jsOr, hY]
      rw [hcolY, processFilterBuckets_cons_leaf _ _ _ _ _ hnleaf,
        processFilterBuckets_nil]
      simp
    · rw [lookupField_createRowFromBucket_path leaf _ X hXk hXd
        (fun m hm => (hmet m hm).1)]
      have : ([⟨X, .str fname⟩, ⟨Y, .str gname⟩] : List PathEntry) =
          [⟨X, .str fname⟩] ++ [⟨Y, .str gname⟩] := rfl
      rw [this, pathRow_append_single]
      simp only [if_neg hY]
      rw [lookupField_setKey, if_neg (fun he => hYX he.symm)]
      have h2 : ([⟨X, .str fname⟩] : List PathEntry) = [] ++ [⟨X, .str fname⟩] := rfl
      rw [h2, pathRow_append_single]
      simp only [if_neg hX]
      rw [lookupField_setKey, if_pos rfl]
    · rw [lookupField_createRowFromBucket_path leaf _ Y hYk hYd
        (fun m hm => (hmet m hm).2)]
      have : ([⟨X, .str fname⟩, ⟨Y, .str gname⟩] : List PathEntry) =
          [⟨X, .str fname⟩] ++ [⟨Y, .str gname⟩] := rfl
      rw [this, pathRow_append_single]
      simp only [if_neg hY]
      rw [lookupField_setKey, if_pos rfl]

/-- C8: `esToTable` fails with `NoDataError` precisely when the aggregations
mapping is empty or absent and the hit list is empty or absent; any
non-empty aggregations mapping, and any non-empty hit list, rules the
no-data failure out (a missing named aggregation fails differently, with
`aggregationNotFound`). -/
theorem esToTable_noData (resp : JVal) (o : Options) :
    ((resp.lookup "aggregations" = none ∨
        resp.lookup "aggregations" = some (.obj [])) →
      (getHits resp = none ∨ getHits resp = some (.arr [])) →
      esToTable resp o = Except.error .noData) ∧
    (∀ (kv : String × JVal) (rest : List (String × JVal)),
      resp.lookup "aggregations" = some (.obj (kv :: rest)) →
      esToTable resp o ≠ Except.error .noData) ∧
    (∀ (h0 : JVal) (hs : List JVal),
      getHits resp = some (.arr (h0 :: hs)) →
      esToTable resp o ≠ Except.error .noData) := by
  refine ⟨?_, ?_, ?_⟩
  · intro ha hh
    rw [esToTable]
    rcases ha with ha | ha <;> rcases hh with hh | hh <;>
      simp only [ha, hh]
  · intro kv rest ha heq
    rw [esToTable] at heq
    simp only [ha] at heq
    rcases hl : lookupField (kv :: rest) (jsOr o.aggregationName kv.1) with _ | aggv <;>
      simp only [hl] at heq
    · cases heq
    · by_cases ht : aggv.truthy
      · rw [if_pos ht] at heq
        cases heq
      · rw [if_neg ht] at heq
        cases heq
  · intro h0 hs hh heq
    rw [esToTable] at heq
    rcases ha : resp.lookup "aggregations" with _ | v
    · simp only [ha, hh] at heq
      cases heq
    · rcases v with _ | b | n | s | xs | fs
      case obj =>
        rcases fs with _ | ⟨kv, rest⟩
        · simp only [ha, hh] at heq
          cases heq
        · simp only [ha] at heq
          rcases hl : lookupField (kv :: rest) (jsOr o.aggregationName kv.1) with
            _ | aggv <;> simp only [hl] at heq
          · cases heq
          · by_cases ht : aggv.truthy
            · rw [if_pos ht] at heq
              cases heq
            · rw [if_neg ht] at heq
              cases heq
      all_goals
        simp only [ha, hh] at heq
      all_goals cases heq

/-- First-seen column accumulation preserves freedom from duplicates. -/
theorem colStepFold_nodup (fs : List (String × JVal)) (cols : List String)
    (h : cols.Nodup) : (fs.foldl colStep cols).Nodup := by
  induction fs generalizing cols with
  | nil => exact h
  | cons kv rest ih =>
      simp only [List.foldl_cons]
      apply ih
      unfold colStep
      by_cases hm : kv.1 ∈ cols
      · rw [if_pos hm]
        exact h
      · rw [if_neg hm]
        simp [List.nodup_append, h, hm]

/-- First-seen column accumulation only appends. -/
theorem colStepFold_grow (fs : List (String × JVal)) (cols : List String) :
    ∃ ex, fs.foldl colStep cols = cols ++ ex := by
  induction fs generalizing cols with
  | nil => exact ⟨[], by simp⟩
  | cons kv rest ih =>
      simp only [List.foldl_cons]
      by_cases hm : kv.1 ∈ cols
      · rw [show colStep cols kv = cols from by unfold colStep; rw [if_pos hm]]
        exact ih cols
      · rw [show colStep cols kv = cols ++ [kv.1] from by
          unfold colStep; rw [if_neg hm]]
        obtain ⟨ex, hex⟩ := ih (cols ++ [kv.1])
        exact ⟨[kv.1] ++ ex, by rw [hex]; simp⟩

/-- The hits column list never repeats a column. -/
theorem hitsColumns_nodup (hits : List JVal) : (hitsColumns hits).Nodup := by
  unfold hitsColumns
  have hgen : ∀ (hs : List JVal) (cols : List String), cols.Nodup →
      (hs.foldl hitColsStep cols).Nodup := by
    intro hs
    induction hs with
    | nil => exact fun cols h => h
    | cons h0 rest ih =>
        intro cols h
        exact ih _ (colStepFold_nodup _ _ h)
  exact hgen hits ["_id"] (by simp)

/-- The hits column list starts with `_id`. -/
theorem hitsColumns_head (hits : List JVal) :
    ∃ ex, hitsColumns hits = "_id" :: ex := by
  unfold hitsColumns
  have hgen : ∀ (hs : List JVal) (cols : List String),
      ∃ ex, hs.foldl hitColsStep cols = cols ++ ex := by
    intro hs
    induction hs with
    | nil => exact fun cols => ⟨[], by simp⟩
    | cons h0 rest ih =>
        intro cols
        obtain ⟨e1, he1⟩ := colStepFold_grow (hitSourceFields h0) cols
        obtain ⟨e2, he2⟩ := ih (cols ++ e1)
        refine ⟨e1 ++ e2, ?_⟩
        simp only [List.foldl_cons, hitColsStep, he1, he2, List.append_assoc]
  obtain ⟨ex, hex⟩ := hgen hits ["_id"]
  exact ⟨ex, by simpa using hex⟩

/-- Row building never touches columns outside the processed list. -/
theorem hitRowFold_lookup_not_mem (h : JVal) (cs : List String) (r : Row)
    (c : String) (hc : c ∉ cs) :
    lookupField (cs.foldl (hitRowStep h) r) c = lookupField r c := by
  induction cs generalizing r with
  | nil => rfl
  | cons c0 rest ih =>
      simp only [List.foldl_cons]
      rw [ih _ (fun hx => hc (by simp [hx]))]
      unfold hitRowStep
      by_cases h0 : c0 = "_id"
      · rw [if_pos h0]
      · rw [if_neg h0, lookupField_setKey,
          if_neg (fun he => hc (by simp [he]))]

/-- Row building leaves the `_id` cell alone. -/
theorem hitRowFold_lookup_id (h : JVal) (cs : List String) (r : Row) :
    lookupField (cs.foldl (hitRowStep h) r) "_id" = lookupField r "_id" := by
  induction cs generalizing r with
  | nil => rfl
  | cons c0 rest ih =>
      simp only [List.foldl_cons]
      rw [ih]
      unfold hitRowStep
      by_cases h0 : c0 = "_id"
      · rw [if_pos h0]
      · rw [if_neg h0, lookupField_setKey, if_neg (fun he => h0 he.symm)]

/-- Row building assigns each processed non-`_id` column its hit cell. -/
theorem hitRowFold_lookup_mem (h : JVal) (c : String) (hid : c ≠ "_id") :
    ∀ (cs : List String) (r : Row), c ∈ cs → cs.Nodup →
      lookupField (cs.foldl (hitRowStep h) r) c = some (hitCell h c) := by
  intro cs
  induction cs with
  | nil =>
      intro r hmem _
      cases hmem
  | cons c0 rest ih =>
      intro r hmem hnd
      simp only [List.foldl_cons]
      by_cases he : c0 = c
      · subst he
        have hrest : c0 ∉ rest := (List.nodup_cons.mp hnd).1
        rw [hitRowFold_lookup_not_mem h rest _ c0 hrest]
        unfold hitRowStep
        rw [if_neg hid, lookupField_setKey, if_pos rfl]
      · have hcr : c ∈ rest := by
          rcases List.mem_cons.mp hmem with h1 | h1
          · exact absurd h1.symm he
          · exact h1
        exact ih _ hcr (List.nodup_cons.mp hnd).2

/-- Keys of a built row: the starting keys, then the processed non-`_id`
columns that were fresh. -/
theorem hitRowFold_keys (h : JVal) :
    ∀ (cs : List String) (r : Row), cs.Nodup →
      (∀ c ∈ cs, c ≠ "_id" → c ∉ r.map Prod.fst) →
      (cs.foldl (hitRowStep h) r).map Prod.fst =
        r.map Prod.fst ++ cs.filter (fun c => c ≠ "_id") := by
  intro cs
  induction cs with
  | nil =>
      intro r _ _
      simp
  | cons c0 rest ih =>
      intro r hnd hfresh
      simp only [List.foldl_cons, List.filter_cons]
      by_cases h0 : c0 = "_id"
      · subst h0
        rw [if_neg (by simp)]
        have hstep : hitRowStep h r "_id" = r := by
          unfold hitRowStep
          rw [if_pos rfl]
        rw [hstep]
        exact ih r (List.nodup_cons.mp hnd).2
          (fun c hc hcid => hfresh c (by simp [hc]) hcid)
      · have hc0r : c0 ∉ r.map Prod.fst := hfresh c0 (by simp) h0
        have hstep : hitRowStep h r c0 = r ++ [(c0, hitCell h c0)] := by
          unfold hitRowStep setKey
          rw [if_neg h0, if_neg (fun hany => hc0r ((any_key_iff r c0).mp hany))]
        rw [hstep, if_pos (by simp [h0])]
        rw [ih (r ++ [(c0, hitCell h c0)]) (List.nodup_cons.mp hnd).2 ?fresh]
        · simp
        case fresh =>
          intro c hc hcid
          simp only [List.map_append, List.map_cons, List.map_nil]
          intro hmem
          rcases List.mem_append.mp hmem with h1 | h1
          · exact hfresh c (by simp [hc]) hcid h1
          · simp only [List.mem_singleton] at h1
            exact (List.nodup_cons.mp hnd).1 (h1 ▸ hc)

/-- C9: in hits mode the table has one row per hit in hit order; the column
list is `_id` followed by the source keys in first-seen order, every row's
key list equals it, `_id` holds the hit's identifier, an absent source field
renders as the empty string while present fields keep scalars unchanged and
JSON-encode objects and arrays. -/
theorem hits_mode_table (resp : JVal) (o : Options) (h0 : JVal)
    (hs0 : List JVal)
    (hagg : resp.lookup "aggregations" = none ∨
      resp.lookup "aggregations" = some (.obj []))
    (hh : getHits resp = some (.arr (h0 :: hs0))) :
    esToTable resp o = Except.ok (hitsToTable (h0 :: hs0)) ∧
      hitsToTable (h0 :: hs0) =
        (h0 :: hs0).map (hitToRow (hitsColumns (h0 :: hs0))) ∧
      (hitsToTable (h0 :: hs0)).length = (h0 :: hs0).length ∧
      (∃ ex, hitsColumns (h0 :: hs0) = "_id" :: ex) ∧
      (∀ hit ∈ h0 :: hs0,
        (hitToRow (hitsColumns (h0 :: hs0)) hit).map Prod.fst =
            hitsColumns (h0 :: hs0) ∧
          (∀ i, hit.lookup "_id" = some i →
            lookupField (hitToRow (hitsColumns (h0 :: hs0)) hit) "_id" = some i) ∧
          (∀ c ∈ hitsColumns (h0 :: hs0), c ≠ "_id" →
            lookupField (hitToRow (hitsColumns (h0 :: hs0)) hit) c =
              some (hitCell hit c)) ∧
          (∀ c, hitCell hit c =
            match lookupField (hitSourceFields hit) c with
            | some v => valueToCell v
            | none => .str "")) ∧
      (∀ v, isScalar v = true → valueToCell v = v) ∧
      (∀ v, isScalar v = false → valueToCell v = .str (jsonStringify v)) := by
  refine ⟨?_, rfl, by simp [hitsToTable], hitsColumns_head _, ?_, ?_, ?_⟩
  · rw [esToTable]
    rcases hagg with ha | ha <;> simp only [ha, hh]
  · intro hit hmem
    have hnd := hitsColumns_nodup (h0 :: hs0)
    obtain ⟨ex, hex⟩ := hitsColumns_head (h0 :: hs0)
    refine ⟨?_, ?_, ?_, fun c => rfl⟩
    · unfold hitToRow
      rw [hitRowFold_keys hit _ _ hnd ?fresh]
      · rw [hex]
        have hexid : "_id" ∉ ex := by
          rw [hex] at hnd
          exact (List.nodup_cons.mp hnd).1
        have hfilter : ex.filter (fun c => c ≠ "_id") = ex := by
          apply List.filter_eq_self.mpr
          intro c hc
          rw [decide_eq_true_eq]
          intro he
          rw [he] at hc
          exact hexid hc
        simp only [List.filter_cons]
        rw [if_neg (by simp), hfilter]
        simp
      case fresh =>
        intro c hc hcid
        simp only [List.map_cons, List.map_nil, List.mem_singleton]
        exact hcid
    · intro i hi
      unfold hitToRow
      rw [hitRowFold_lookup_id, hi]
      simp [lookupField]
    · intro c hc hcid
      unfold hitToRow
      exact hitRowFold_lookup_mem hit c hcid _ _ hc hnd
  · intro v hv
    unfold valueToCell
    rw [if_pos hv]
  · intro v hv
    unfold valueToCell
    rw [if_neg (by rw [hv]; exact Bool.false_ne_true)]

/-! Concrete witnesses instantiating the claim theorems. -/

/-- Witness for the remainder-row theorem at a concrete Terms node. -/
theorem terms_remainder_row_witness :
    ∃ other : Row,
      processAggregation
          (.obj [("buckets", .arr []), ("sum_other_doc_count", .num 42)]) {} [] =
          processTermsBuckets [] {} [] (termsColumnName {}) ++ [other] ∧
        lookupField other (termsColumnName {}) = some (.str "_other_") ∧
        lookupField other "doc_count" = some (.num 42) ∧
        lookupField other "key" = none ∧
        ∀ c ∈ other.map Prod.fst,
          c ∈ ([] : List PathEntry).map PathEntry.column ∨
            c = termsColumnName {} ∨ c = "doc_count" :=
  terms_remainder_row
    (.obj [("buckets", .arr []), ("sum_other_doc_count", .num 42)]) {} [] [] 42
    rfl rfl (by decide) (by decide) (by decide) (by decide) (by decide)

/-- Witness for the Filters naming theorem: precedence at concrete options
and the concrete X/Y nesting scenario. -/
theorem filters_column_naming_witness :
    filtersColumnName { currentAggregationName := some "Y" } = "Y" ∧
      filtersColumnName { filterColumnName := some "X" } = "X" ∧
      filtersColumnName {} = "filter" ∧
      ∃ row : Row,
        esToTable
            (.obj [("aggregations", .obj [("X", .obj [("buckets", .obj
              [("f1", .obj [("doc_count", .num 9), ("Y", .obj [("buckets",
                .obj [("g1", .obj [("doc_count", .num 3)])])])])])])])]) {} =
          Except.ok [row] ∧
          lookupField row "X" = some (.str "f1") ∧
          lookupField row "Y" = some (.str "g1") :=
  ⟨(filters_column_naming { currentAggregationName := some "Y" }).1 "Y" rfl
      (by decide),
    (filters_column_naming { filterColumnName := some "X" }).2.1 "X" rfl rfl
      (by decide),
    (filters_column_naming {}).2.2.1 rfl rfl,
    (filters_column_naming {}).2.2.2.2 "X" "Y" "f1" "g1"
      (.obj [("doc_count", .num 9), ("Y", .obj [("buckets",
        .obj [("g1", .obj [("doc_count", .num 3)])])])])
      (.obj [("buckets", .obj [("g1", .obj [("doc_count", .num 3)])])])
      (.obj [("doc_count", .num 3)])
      (.obj [("aggregations", .obj [("X", .obj [("buckets", .obj
        [("f1", .obj [("doc_count", .num 9), ("Y", .obj [("buckets",
          .obj [("g1", .obj [("doc_count", .num 3)])])])])])])])])
      (by decide) (by decide) (by decide) (by decide) (by decide) (by decide)
      (by decide) rfl (by decide) rfl rfl (by decide)⟩

/-- Witness for the `"key"`-column theorem at a concrete bucket whose key
differs from the last path value. -/
theorem createRowFromBucket_key_column_witness :
    lookupField
        (createRowFromBucket (.obj [("key", .str "a"), ("doc_count", .num 1)])
          [⟨"status", .str "b"⟩]) "key" =
      match getBucketKey (.obj [("key", .str "a"), ("doc_count", .num 1)]) with
      | none => none
      | some bk =>
          match ([⟨"status", .str "b"⟩] : List PathEntry).getLast? with
          | none => some bk
          | some last => if last.value = bk then none else some bk :=
  createRowFromBucket_key_column
    (.obj [("key", .str "a"), ("doc_count", .num 1)])
    [⟨"status", .str "b"⟩] (by decide)

/-- Witness for the first-row-header theorem at a concrete heterogeneous
table, and an absent and a null cell rendering empty. -/
theorem tableToCSV_first_row_header_witness :
    tableToCSV ([("a", JVal.str "1")] ::
          [[("a", JVal.str "2"), ("b", JVal.str "x")]].map
            (fun r => r)) {} =
        tableToCSV ([("a", JVal.str "1")] ::
          [[("a", JVal.str "2"), ("b", JVal.str "x")]].map
            (fun r => r.filter
              (fun kv => kv.1 ∈ [("a", JVal.str "1")].map Prod.fst))) {} ∧
      csvCell [("b", JVal.null)] "b" = "" ∧
      csvCell [("b", JVal.null)] "c" = "" := by
  refine ⟨?_, ?_, ?_⟩
  · have h := (tableToCSV_first_row_header [("a", JVal.str "1")]
      [[("a", JVal.str "2"), ("b", JVal.str "x")]] {}).1
    simpa using h
  · exact (tableToCSV_first_row_header [("a", JVal.str "1")] [] {}).2
      [("b", JVal.null)] "b" (Or.inr rfl)
  · exact (tableToCSV_first_row_header [("a", JVal.str "1")] [] {}).2
      [("b", JVal.null)] "c" (Or.inl rfl)

/-- Witness for the Terms row-count theorem: one bucket plus a remainder. -/
theorem esToTable_terms_row_count_witness :
    ∃ rows : List Row,
      esToTable
          (.obj [("aggregations", .obj [("s", .obj
            [("buckets", .arr [.obj [("key", .str "a"), ("doc_count", .num 1)]]),
             ("sum_other_doc_count", .num 42)])])]) {} =
        Except.ok rows ∧
      rows.length =
        [JVal.obj [("key", .str "a"), ("doc_count", .num 1)]].length +
          (if sumOtherPositive (.obj
            [("buckets", .arr [.obj [("key", .str "a"), ("doc_count", .num 1)]]),
             ("sum_other_doc_count", .num 42)]) then 1 else 0) :=
  esToTable_terms_row_count
    (.obj [("aggregations", .obj [("s", .obj
      [("buckets", .arr [.obj [("key", .str "a"), ("doc_count", .num 1)]]),
       ("sum_other_doc_count", .num 42)])])])
    (.obj [("buckets", .arr [.obj [("key", .str "a"), ("doc_count", .num 1)]]),
      ("sum_other_doc_count", .num 42)])
    "s" {} [.obj [("key", .str "a"), ("doc_count", .num 1)]]
    rfl rfl rfl (by decide)

/-- Witness for the key-preference theorem at a bucket carrying both keys. -/
theorem bucket_key_prefers_key_as_string_witness :
    getBucketKey (.obj [("key", .num 7), ("key_as_string", .str "seven"),
        ("doc_count", .num 5)]) = some (.str "seven") ∧
      (JVal.str "seven" ≠ JVal.num 7 →
        getBucketKey (.obj [("key", .num 7), ("key_as_string", .str "seven"),
          ("doc_count", .num 5)]) ≠ some (.num 7)) ∧
      (∀ (bs : List JVal) (o : Options) (path : List PathEntry) (c : String),
        findNestedAggregations (.obj [("key", .num 7),
          ("key_as_string", .str "seven"), ("doc_count", .num 5)]) = [] →
        processTermsBuckets ((.obj [("key", .num 7),
            ("key_as_string", .str "seven"), ("doc_count", .num 5)]) :: bs)
            o path c =
          createRowFromBucket (.obj [("key", .num 7),
              ("key_as_string", .str "seven"), ("doc_count", .num 5)])
              (path ++ [⟨c, .str "seven"⟩]) ::
            processTermsBuckets bs o path c) ∧
      (∀ (path : List PathEntry) (c : String),
        c ≠ "" → c ≠ "key" → c ≠ "doc_count" →
        (∀ m ∈ findMetricAggregations (.obj [("key", .num 7),
          ("key_as_string", .str "seven"), ("doc_count", .num 5)]), m.1 ≠ c) →
        lookupField
            (createRowFromBucket (.obj [("key", .num 7),
              ("key_as_string", .str "seven"), ("doc_count", .num 5)])
              (path ++ [⟨c, .str "seven"⟩])) c =
          some (.str "seven")) :=
  bucket_key_prefers_key_as_string
    (.obj [("key", .num 7), ("key_as_string", .str "seven"),
      ("doc_count", .num 5)])
    (.str "seven") (.num 7) rfl rfl

/-- Witness for the NoDataError theorem: the empty response fails with
NoDataError, while non-empty aggregations or hits do not. -/
theorem esToTable_noData_witness :
    esToTable (JVal.obj []) {} = Except.error .noData ∧
      esToTable (.obj [("aggregations", .obj [("s", .obj [("buckets",
          .arr [])])])]) {} ≠ Except.error .noData ∧
      esToTable (.obj [("hits", .obj [("hits",
          .arr [.obj [("_id", .str "h1")]])])]) {} ≠ Except.error .noData :=
  ⟨(esToTable_noData (JVal.obj []) {}).1 (Or.inl rfl) (Or.inl rfl),
    (esToTable_noData _ {}).2.1 ("s", .obj [("buckets", .arr [])]) [] rfl,
    (esToTable_noData _ {}).2.2 (.obj [("_id", .str "h1")]) [] rfl⟩

/-- Witness for the hits-mode theorem at the two-hit example. -/
theorem hits_mode_table_witness :
    esToTable
        (.obj [("hits", .obj [("hits", .arr
          [.obj [("_id", .str "h1"), ("_source", .obj [("a", .num 1)])],
           .obj [("_id", .str "h2"), ("_source", .obj [("a", .num 2),
             ("b", .arr [.num 1, .num 2])])]])])]) {} =
        Except.ok (hitsToTable
          [.obj [("_id", .str "h1"), ("_source", .obj [("a", .num 1)])],
           .obj [("_id", .str "h2"), ("_source", .obj [("a", .num 2),
             ("b", .arr [.num 1, .num 2])])]]) ∧
      ∃ ex, hitsColumns
          [.obj [("_id", .str "h1"), ("_source", .obj [("a", .num 1)])],
           .obj [("_id", .str "h2"), ("_source", .obj [("a", .num 2),
             ("b", .arr [.num 1, .num 2])])]] = "_id" :: ex :=
  ⟨(hits_mode_table
      (.obj [("hits", .obj [("hits", .arr
        [.obj [("_id", .str "h1"), ("_source", .obj [("a", .num 1)])],
         .obj [("_id", .str "h2"), ("_source", .obj [("a", .num 2),
           ("b", .arr [.num 1, .num 2])])]])])]) {}
      (.obj [("_id", .str "h1"), ("_source", .obj [("a", .num 1)])])
      [.obj [("_id", .str "h2"), ("_source", .obj [("a", .num 2),
        ("b", .arr [.num 1, .num 2])])]]
      (Or.inl rfl) rfl).1,
    (hits_mode_table
      (.obj [("hits", .obj [("hits", .arr
        [.obj [("_id", .str "h1"), ("_source", .obj [("a", .num 1)])],
         .obj [("_id", .str "h2"), ("_source", .obj [("a", .num 2),
           ("b", .arr [.num 1, .num 2])])]])])]) {}
      (.obj [("_id", .str "h1"), ("_source", .obj [("a", .num 1)])])
      [.obj [("_id", .str "h2"), ("_source", .obj [("a", .num 2),
        ("b", .arr [.num 1, .num 2])])]]
      (Or.inl rfl) rfl).2.2.2.1⟩

/-- Witness for the empty-table/header theorem: the empty table renders
empty, a one-row table renders its header line. -/
theorem tableToCSV_empty_and_header_witness :
    tableToCSV ([] : List Row) {} = "" ∧
      tableToCSV [[("a", JVal.num 1)]] {} = "a\n1\n" := by
  refine ⟨(tableToCSV_empty_and_header {} [] []).1, ?_⟩
  have h := (tableToCSV_empty_and_header {} [("a", JVal.num 1)] []).2
    (by decide)
  rw [h]
  decide

end Es2Tabular
